/-
Verification of watchurl (the80srobot/watchurl).

The program polls URLs, extracts readable text, compares it with the
last persisted snapshot and reports a compact diff.  We give a shallow
embedding of the change-detection pipeline:

* Go strings are modelled as `List Char`, one element per byte, so that
  `len`, slicing and `strings.IndexByte` are byte-accurate.
* The external collaborators (HTTP fetch + html2text, sha1, the
  diff-match-patch algorithm, the random source) are parameters of the
  embedding: the fetch outcome is an `Except`, the hash and the diff
  algorithm are function arguments, the random jitter draw is an `Int`
  argument constrained by the documented contract of `rand.Int63n`.
* Filesystem state for one target is an `Option (List Char)` (absent or
  present snapshot) together with fault flags for the read and write
  paths; `diffURL` is the state-passing translation of the function of
  the same name, instrumented with flags recording whether the snapshot
  write happened and whether the diff renderer was invoked.

The repository contains two variants of the program: the current one
(`watchurl.go` in the module root, read here from part_001) and a legacy
near-duplicate.  The current variant is embedded at top level, the
legacy one in namespace `Legacy`.
-/
import Mathlib

set_option linter.unusedVariables false

/-- The newline byte, `'\n'` in the Go sources. -/
def nl : Char := '\n'

/-- Number of occurrences of byte `b` in a byte string. -/
def countByte : List Char → Char → Nat
  | [], _ => 0
  | c :: cs, b => (if c = b then 1 else 0) + countByte cs b

/-- Position of the first occurrence of `b`, if any
(`strings.IndexByte` before the `-1` encoding). -/
def idx? : List Char → Char → Option Nat
  | [], _ => none
  | c :: cs, b => if c = b then some 0 else (idx? cs b).map (· + 1)

/-- Position of the last occurrence of `b`, if any
(`strings.LastIndexByte` before the `-1` encoding). -/
def lastIdx? : List Char → Char → Option Nat
  | [], _ => none
  | c :: cs, b =>
    match lastIdx? cs b with
    | some i => some (i + 1)
    | none => if c = b then some 0 else none

/-- Model of `strings.IndexByte`: first index of `b` in `t`, `-1` if absent. -/
def indexByte (t : List Char) (b : Char) : Int :=
  match idx? t b with
  | none => -1
  | some i => (i : Int)

/-- Model of `strings.LastIndexByte`: last index of `b` in `t`, `-1` if absent. -/
def lastIndexByte (t : List Char) (b : Char) : Int :=
  match lastIdx? t b with
  | none => -1
  | some i => (i : Int)

/-- Decimal rendering of an `Int`, as Go `fmt`'s `%d` verb produces. -/
def intDec (n : Int) : List Char :=
  if n < 0 then '-' :: Nat.toDigits 10 n.natAbs else Nat.toDigits 10 n.toNat

/-- The elision marker `fmt.Fprintf(w, "\n(skipped %d bytes)\n", lastNL-firstNL)`
written for a long unchanged span. -/
def skippedMarker (n : Int) : List Char :=
  "\n(skipped ".toList ++ intDec n ++ " bytes)\n".toList

/-- ANSI sequence opening an inserted (green) span. -/
def ansiGreen : List Char := "\x1b[32m".toList

/-- ANSI sequence opening a deleted (red) span. -/
def ansiRed : List Char := "\x1b[31m".toList

/-- ANSI reset sequence closing a coloured span. -/
def ansiReset : List Char := "\x1b[0m".toList

/-- One span of the cleaned-up diff produced by
`dmp.DiffCleanupSemantic(dmp.DiffMain(old, new, true))`
(package diffmatchpatch, external to this repository). -/
inductive GoDiff where
  | insert (t : List Char)
  | delete (t : List Char)
  | equal (t : List Char)
deriving DecidableEq

/-- Rendering of one `DiffEqual` span inside `reportDiffs`: verbatim when the
first and last newline coincide (zero or one newline), otherwise the text up
to the first newline, the skipped-bytes marker, and the text from the last
newline onward. -/
def renderEqual (t : List Char) : List Char :=
  let firstNL := indexByte t nl
  let lastNL := lastIndexByte t nl
  if lastNL = firstNL then t
  else t.take firstNL.toNat ++ skippedMarker (lastNL - firstNL) ++ t.drop lastNL.toNat

/-- Text written by `reportDiffs` for a single diff span. -/
def renderDiff : GoDiff → List Char
  | .insert t => ansiGreen ++ t ++ ansiReset
  | .delete t => ansiRed ++ t ++ ansiReset
  | .equal t => renderEqual t

/-- Contribution of a single diff span to the edit count
(`edits++` on insert and delete only). -/
def editCount : GoDiff → Nat
  | .insert _ => 1
  | .delete _ => 1
  | .equal _ => 0

/-- `reportDiffs` from watchurl.go: renders the span list to the writer and
returns the number of insert/delete edits.  The writer is modelled by
returning the accumulated output. -/
def reportDiffs : List GoDiff → List Char × Nat
  | [] => ([], 0)
  | d :: ds =>
    let r := reportDiffs ds
    (renderDiff d ++ r.1, editCount d + r.2)

/-! ## The change-detection pipeline: `diffURL` and its context wrapper -/

/-- The report returned for the very first observation of a target. -/
def initialFetchMsg : List Char := "(initial fetch)".toList

/-- Error causes distinguished by the embedding of `diffURL` /
`diffURLWithTimeout`.  `fetchErr` covers `getURLText` failures (request
construction, transport, body read, extractor), `readErr` a state read
failure other than not-found (including `statePath` home resolution),
`writeErr` a `writeState` failure, `ctxErr` the context error spliced in
by `diffURLWithTimeout`. -/
inductive DiffErr where
  | fetchErr
  | readErr
  | writeErr
  | ctxErr
deriving DecidableEq

/-- The environment one tick of `diffURL` runs in: the outcome of
`getURLText`, fault flags for the state read and write paths, and the
on-disk snapshot for this target (`none` when no snapshot file exists,
in which case `readState`'s error satisfies `os.IsNotExist`). -/
structure Env where
  fetchRes : Except Unit (List Char)
  readFault : Bool
  writeFault : Bool
  store : Option (List Char)

/-- The observable outcome of one `diffURL` call: the returned diff text,
edit count and error, the post-call on-disk snapshot, and instrumentation
flags recording whether `writeState` succeeded (`wrote`) and whether the
diff renderer `reportDiffs` was invoked (`rendered`). -/
structure TickOutcome where
  diff : List Char
  edits : Nat
  err : Option DiffErr
  store : Option (List Char)
  wrote : Bool
  rendered : Bool
deriving DecidableEq

/-- `diffURL` from watchurl.go, with the diff computation
(`DiffMain` + `DiffCleanupSemantic`, external) abstracted as `diffAlg`,
returning the span list that `reportDiffs` renders.

Source control flow: fetch (propagate error); read state, where
not-found is downgraded to success with the zero-value empty string;
return empty diff when old equals new; write the new state (propagate
error); return the distinguished initial-fetch report when old was
empty; otherwise render the diff. -/
def diffURL (diffAlg : List Char → List Char → List GoDiff) (env : Env) : TickOutcome :=
  match env.fetchRes with
  | .error _ => ⟨[], 0, some .fetchErr, env.store, false, false⟩
  | .ok text =>
    if env.readFault then ⟨[], 0, some .readErr, env.store, false, false⟩
    else
      let old := env.store.getD []
      if old = text then ⟨[], 0, none, env.store, false, false⟩
      else if env.writeFault then ⟨[], 0, some .writeErr, env.store, false, false⟩
      else if old = [] then ⟨initialFetchMsg, 0, none, some text, true, false⟩
      else
        let r := reportDiffs (diffAlg old text)
        ⟨r.1, r.2, none, some text, true, true⟩

/-- `diffURLWithTimeout` from watchurl.go: runs `diffURL` and, when it
returned no error but the (timeout-wrapped) context has an error by the
time it returns, replaces the nil error with a context-derived error,
keeping the other return values.  `ctxErrAtReturn` models
`ctx.Err() != nil` at the check. -/
def diffURLWithTimeout (diffAlg : List Char → List Char → List GoDiff)
    (ctxErrAtReturn : Bool) (env : Env) : TickOutcome :=
  let r := diffURL diffAlg env
  if r.err = none ∧ ctxErrAtReturn = true then { r with err := some .ctxErr } else r

/-- Whether this environment makes `diffURL` reach the `writeState` call:
the fetch succeeded, the read did not fault, and the (possibly empty)
prior snapshot differs from the fetched text. -/
def writeAttempted (env : Env) : Bool :=
  match env.fetchRes with
  | .error _ => false
  | .ok text => !env.readFault && decide (env.store.getD [] ≠ text)

/-- Whether the fetch failed in this environment. -/
def fetchFailed (env : Env) : Bool :=
  match env.fetchRes with
  | .error _ => true
  | .ok _ => false

/-- A diff algorithm placeholder used to instantiate universally
quantified statements at concrete inputs. -/
def noDiffAlg : List Char → List Char → List GoDiff := fun _ _ => []

/-! ## The state store: `statePath` and friends -/

/-- Go's `\w` byte class (RE2, ASCII): letters, digits, underscore. -/
def isWordByte (c : Char) : Bool := c.isAlphanum || c = '_'

/-- `specialRE.ReplaceAllLiteralString(addr, "_")` with
`specialRE = [^\w]+`: every maximal run of non-word bytes collapses to a
single underscore.  The flag records whether the previous byte was part
of such a run. -/
def sanitizeAux : Bool → List Char → List Char
  | _, [] => []
  | prevNonWord, c :: cs =>
    if isWordByte c then c :: sanitizeAux false cs
    else if prevNonWord then sanitizeAux true cs
    else '_' :: sanitizeAux true cs

/-- Sanitized form of a URL as used in the state filename. -/
def sanitize (s : List Char) : List Char := sanitizeAux false s

/-- The state filename for a target:
`fmt.Sprintf("%s_%s", hex.EncodeToString(digest[:]), sanitized)`,
truncated to 127 bytes when longer.  `hash` abstracts
`hex.EncodeToString(sha1.Sum(addr))` (Go standard library). -/
def stateName (hash : List Char → List Char) (addr : List Char) : List Char :=
  let name := hash addr ++ '_' :: sanitize addr
  if 127 < name.length then name.take 127 else name

/-- `statePath` from watchurl.go: expands a leading `~` in the configured
state directory to the home directory (failing when the home directory
cannot be resolved, modelled by `homeOk = false`) and joins it with the
state filename.  `filepath.Join` is modelled as slash concatenation
(path cleaning elided; it does not affect the claims). -/
def statePath (hash : List Char → List Char) (stateDir : List Char)
    (home : List Char) (homeOk : Bool) (addr : List Char) :
    Except Unit (List Char) :=
  match stateDir with
  | '~' :: rest =>
    if homeOk then .ok ((home ++ rest) ++ '/' :: stateName hash addr) else .error ()
  | dir => .ok (dir ++ '/' :: stateName hash addr)

/-! ## The watch loop: one tick -/

/-- What one firing of the timer in `watch` does, seen from outside:
whether the loop returned (`terminated`), whether the timer was re-armed
(`timerArmed`, done by `t.Reset` only when `every > 0`), and the delay
the timer was re-armed with. -/
structure TickStep where
  terminated : Bool
  timerArmed : Bool
  delay : Option Int
deriving DecidableEq

/-- One `case <-t.C` iteration of `watch` (durations in nanoseconds):
when `every > 0` the timer is reset to `every` plus a jitter draw `j`
(`rand.Int63n(jitter)`, only when `jitter > 0`); a failed check logs and
continues; a successful check returns when `every <= 0`. -/
def watchTick (every jitter j : Int) (fetchErr : Bool) : TickStep :=
  let armed := decide (0 < every)
  let delay : Option Int :=
    if 0 < every then some (every + (if 0 < jitter then j else 0)) else none
  if fetchErr then ⟨false, armed, delay⟩
  else if every ≤ 0 then ⟨true, armed, delay⟩
  else ⟨false, armed, delay⟩

/-! ## The legacy variant (src/watchurl.go)

The repository root keeps an older near-duplicate of the program.  Its
`reportDiffs` is textually identical; its `statePath` does not truncate
the filename; its `diffURL` returns a nil error on fetch failure and on
non-not-found read failure (`return "", 0, nil` in both branches). -/

namespace Legacy

/-- Legacy `renderEqual` step inside `reportDiffs` (textually identical
to the current variant). -/
def renderEqual (t : List Char) : List Char :=
  let firstNL := indexByte t nl
  let lastNL := lastIndexByte t nl
  if lastNL = firstNL then t
  else t.take firstNL.toNat ++ skippedMarker (lastNL - firstNL) ++ t.drop lastNL.toNat

/-- Legacy rendering of a single diff span. -/
def renderDiff : GoDiff → List Char
  | .insert t => ansiGreen ++ t ++ ansiReset
  | .delete t => ansiRed ++ t ++ ansiReset
  | .equal t => Legacy.renderEqual t

/-- Legacy `reportDiffs` (textually identical to the current variant). -/
def reportDiffs : List GoDiff → List Char × Nat
  | [] => ([], 0)
  | d :: ds =>
    let r := Legacy.reportDiffs ds
    (Legacy.renderDiff d ++ r.1, editCount d + r.2)

/-- Legacy state filename: hex digest and sanitized URL, without the
127-byte truncation added in the later variant. -/
def stateName (hash : List Char → List Char) (addr : List Char) : List Char :=
  hash addr ++ '_' :: sanitize addr

/-- Legacy `statePath`: like the current one but with the untruncated
filename. -/
def statePath (hash : List Char → List Char) (stateDir : List Char)
    (home : List Char) (homeOk : Bool) (addr : List Char) :
    Except Unit (List Char) :=
  match stateDir with
  | '~' :: rest =>
    if homeOk then .ok ((home ++ rest) ++ '/' :: Legacy.stateName hash addr) else .error ()
  | dir => .ok (dir ++ '/' :: Legacy.stateName hash addr)

/-- Legacy `diffURL`: same success path as the current variant, but a
failed fetch and a failed (non-not-found) state read return a nil
error. -/
def diffURL (diffAlg : List Char → List Char → List GoDiff) (env : Env) : TickOutcome :=
  match env.fetchRes with
  | .error _ => ⟨[], 0, none, env.store, false, false⟩
  | .ok text =>
    if env.readFault then ⟨[], 0, none, env.store, false, false⟩
    else
      let old := env.store.getD []
      if old = text then ⟨[], 0, none, env.store, false, false⟩
      else if env.writeFault then ⟨[], 0, some .writeErr, env.store, false, false⟩
      else if old = [] then ⟨initialFetchMsg, 0, none, some text, true, false⟩
      else
        let r := Legacy.reportDiffs (diffAlg old text)
        ⟨r.1, r.2, none, some text, true, true⟩

end Legacy

/-! ## Lemmas about byte indices and counts -/

/-- `i` is the position of the first `b` in `t`. -/
def firstOccAt (t : List Char) (b : Char) (i : Nat) : Prop :=
  t[i]? = some b ∧ ∀ k : Nat, k < i → t[k]? ≠ some b

/-- `j` is the position of the last `b` in `t`. -/
def lastOccAt (t : List Char) (b : Char) (j : Nat) : Prop :=
  t[j]? = some b ∧ ∀ k : Nat, j < k → t[k]? ≠ some b

theorem countByte_eq_zero_iff_idx {t : List Char} {b : Char} :
    countByte t b = 0 ↔ idx? t b = none := by
  induction t with
  | nil => simp [countByte, idx?]
  | cons c cs ih =>
    by_cases hc : c = b
    · simp [countByte, idx?, hc]
    · simp [countByte, idx?, hc, Option.map_eq_none', ih]

theorem countByte_eq_zero_iff_lastIdx {t : List Char} {b : Char} :
    countByte t b = 0 ↔ lastIdx? t b = none := by
  induction t with
  | nil => simp [countByte, lastIdx?]
  | cons c cs ih =>
    by_cases hc : c = b
    · simp only [countByte, lastIdx?, hc, if_pos rfl]
      cases hcs : lastIdx? cs b <;> simp [hcs]
    · simp only [countByte, lastIdx?, hc, if_neg hc]
      cases hcs : lastIdx? cs b with
      | none => simp [hcs ▸ ih, if_neg hc]
      | some i => simp [hcs ▸ ih]

theorem getElem_ne_of_countByte_eq_zero {t : List Char} {b : Char}
    (h : countByte t b = 0) : ∀ k : Nat, t[k]? ≠ some b := by
  induction t with
  | nil => intro k; simp
  | cons c cs ih =>
    simp only [countByte] at h
    have hc : ¬c = b := by intro hcb; rw [if_pos hcb] at h; omega
    have hcs : countByte cs b = 0 := by rw [if_neg hc] at h; omega
    intro k
    cases k with
    | zero => simpa using hc
    | succ k => simpa using ih hcs k

theorem idx_eq_lastIdx_of_count_le_one {t : List Char} {b : Char}
    (h : countByte t b ≤ 1) : idx? t b = lastIdx? t b := by
  induction t with
  | nil => rfl
  | cons c cs ih =>
    by_cases hc : c = b
    · have hzero : countByte cs b = 0 := by simp [countByte, hc] at h; omega
      have hlast : lastIdx? cs b = none := countByte_eq_zero_iff_lastIdx.mp hzero
      simp [idx?, lastIdx?, hc, hlast]
    · have hcs : countByte cs b ≤ 1 := by simp [countByte, hc] at h; omega
      have hih := ih hcs
      cases hidx : idx? cs b with
      | none =>
        have hl : lastIdx? cs b = none := by rw [← hih]; exact hidx
        simp [idx?, lastIdx?, hc, hidx, hl]
      | some i =>
        have hl : lastIdx? cs b = some i := by rw [← hih]; exact hidx
        simp [idx?, lastIdx?, hc, hidx, hl]

theorem exists_idx_lt_lastIdx_of_two_le_count {t : List Char} {b : Char}
    (h : 2 ≤ countByte t b) :
    ∃ i j, idx? t b = some i ∧ lastIdx? t b = some j ∧ i < j := by
  induction t with
  | nil => simp [countByte] at h
  | cons c cs ih =>
    by_cases hc : c = b
    · have hpos : countByte cs b ≠ 0 := by simp [countByte, hc] at h; omega
      have hlast : lastIdx? cs b ≠ none := fun hn =>
        hpos (countByte_eq_zero_iff_lastIdx.mpr hn)
      cases hcs : lastIdx? cs b with
      | none => exact absurd hcs hlast
      | some j => exact ⟨0, j + 1, by simp [idx?, hc], by simp [lastIdx?, hcs], by omega⟩
    · have hcs2 : 2 ≤ countByte cs b := by simp [countByte, hc] at h; omega
      obtain ⟨i, j, hi, hj, hij⟩ := ih hcs2
      exact ⟨i + 1, j + 1, by simp [idx?, hc, hi], by simp [lastIdx?, hj], by omega⟩

theorem firstOccAt_of_idx {t : List Char} {b : Char} {i : Nat}
    (h : idx? t b = some i) : firstOccAt t b i := by
  induction t generalizing i with
  | nil => simp [idx?] at h
  | cons c cs ih =>
    by_cases hc : c = b
    · simp only [idx?, if_pos hc, Option.some.injEq] at h
      subst h
      exact ⟨by simp [hc], by intro k hk; omega⟩
    · simp only [idx?, if_neg hc, Option.map_eq_some'] at h
      obtain ⟨i', hi', rfl⟩ := h
      obtain ⟨hget, hmin⟩ := ih hi'
      refine ⟨by simpa using hget, ?_⟩
      intro k hk
      cases k with
      | zero => simpa using hc
      | succ k => simpa using hmin k (by omega)

theorem lastOccAt_of_lastIdx {t : List Char} {b : Char} {j : Nat}
    (h : lastIdx? t b = some j) : lastOccAt t b j := by
  induction t generalizing j with
  | nil => simp [lastIdx?] at h
  | cons c cs ih =>
    cases hcs : lastIdx? cs b with
    | some i =>
      simp only [lastIdx?, hcs, Option.some.injEq] at h
      subst h
      obtain ⟨hget, hmax⟩ := ih hcs
      refine ⟨by simpa using hget, ?_⟩
      intro k hk
      cases k with
      | zero => omega
      | succ k => simpa using hmax k (by omega)
    | none =>
      simp only [lastIdx?, hcs] at h
      by_cases hc : c = b
      · simp only [if_pos hc, Option.some.injEq] at h
        subst h
        refine ⟨by simp [hc], ?_⟩
        intro k hk
        cases k with
        | zero => omega
        | succ k =>
          have hzero : countByte cs b = 0 := countByte_eq_zero_iff_lastIdx.mpr hcs
          simpa using getElem_ne_of_countByte_eq_zero hzero k
      · simp [if_neg hc] at h

theorem reportDiffs_append (xs ys : List GoDiff) :
    reportDiffs (xs ++ ys)
      = ((reportDiffs xs).1 ++ (reportDiffs ys).1,
         (reportDiffs xs).2 + (reportDiffs ys).2) := by
  induction xs with
  | nil => simp [reportDiffs]
  | cons d ds ih => simp [reportDiffs, ih, Nat.add_assoc]

theorem legacy_reportDiffs_eq (ds : List GoDiff) :
    Legacy.reportDiffs ds = reportDiffs ds := by
  induction ds with
  | nil => rfl
  | cons d tail ih =>
    cases d <;>
      simp [Legacy.reportDiffs, reportDiffs, Legacy.renderDiff, renderDiff,
        Legacy.renderEqual, renderEqual, ih]

/-! ## The claims -/

/-- C1: in `reportDiffs`, every unchanged (equal) span of the cleaned-up
diff is rendered in place between its neighbours; a span whose text
contains at most one line break is emitted verbatim, and a span with two
or more line breaks is emitted as the text up to the first line break,
then the elision marker stating `lastNL - firstNL` (the byte distance
from the first to the last line break, which is the number of bytes
elided), then the text from the last line break onward. -/
theorem reportDiffs_equal_span_elision (pre post : List GoDiff) (t : List Char) :
    (reportDiffs (pre ++ GoDiff.equal t :: post)).1
      = (reportDiffs pre).1 ++ renderEqual t ++ (reportDiffs post).1
    ∧ (countByte t nl ≤ 1 → renderEqual t = t)
    ∧ (2 ≤ countByte t nl →
        ∃ i j : Nat, firstOccAt t nl i ∧ lastOccAt t nl j ∧ i < j ∧
          renderEqual t
            = t.take i ++ skippedMarker ((j : Int) - (i : Int)) ++ t.drop j) := by
  refine ⟨?_, ?_, ?_⟩
  · simp [reportDiffs_append, reportDiffs, renderDiff, editCount, List.append_assoc]
  · intro h
    have heq := idx_eq_lastIdx_of_count_le_one h
    simp [renderEqual, indexByte, lastIndexByte, heq]
  · intro h
    obtain ⟨i, j, hi, hj, hij⟩ := exists_idx_lt_lastIdx_of_two_le_count h
    refine ⟨i, j, firstOccAt_of_idx hi, lastOccAt_of_lastIdx hj, hij, ?_⟩
    have hIB : indexByte t nl = (i : Int) := by simp [indexByte, hi]
    have hLB : lastIndexByte t nl = (j : Int) := by simp [lastIndexByte, hj]
    simp only [renderEqual, hIB, hLB]
    rw [if_neg (by intro hcon; exact absurd (by exact_mod_cast hcon : j = i) (by omega))]
    simp

/-- Closed instance of C1: a one-newline span is verbatim, a two-newline
span is elided around its first and last newline. -/
theorem reportDiffs_equal_span_elision_witness :
    renderEqual ('a' :: nl :: 'b' :: []) = ('a' :: nl :: 'b' :: [])
    ∧ ∃ i j : Nat, firstOccAt ('a' :: nl :: 'b' :: nl :: 'c' :: []) nl i
        ∧ lastOccAt ('a' :: nl :: 'b' :: nl :: 'c' :: []) nl j ∧ i < j
        ∧ renderEqual ('a' :: nl :: 'b' :: nl :: 'c' :: [])
            = ('a' :: nl :: 'b' :: nl :: 'c' :: []).take i
              ++ skippedMarker ((j : Int) - (i : Int))
              ++ ('a' :: nl :: 'b' :: nl :: 'c' :: []).drop j :=
  ⟨(reportDiffs_equal_span_elision [] [] _).2.1 (by decide),
   (reportDiffs_equal_span_elision [] [] _).2.2 (by decide)⟩

/-- C2 counterexample: with no prior snapshot and an empty fetched text,
`diffURL` short-circuits on `old == text` before the initial-fetch
branch: no "(initial fetch)" report is produced and nothing is
persisted, contradicting the claim's "including the empty text". -/
theorem diffURL_emptyFirstFetch_counterexample :
    (diffURL noDiffAlg ⟨Except.ok [], false, false, none⟩).diff ≠ initialFetchMsg
    ∧ (diffURL noDiffAlg ⟨Except.ok [], false, false, none⟩).wrote = false
    ∧ (diffURL noDiffAlg ⟨Except.ok [], false, false, none⟩).store = none := by
  decide

/-- C2 (amended): with no prior snapshot, the first successful fetch of
a non-empty text yields exactly the distinguished "(initial fetch)"
report with edit count 0 and persists the fetched text; an empty
fetched text yields no report and persists nothing. -/
theorem diffURL_firstFetch_initialReport
    (diffAlg : List Char → List Char → List GoDiff) (t : List Char) (h : t ≠ []) :
    diffURL diffAlg ⟨Except.ok t, false, false, none⟩
      = ⟨initialFetchMsg, 0, none, some t, true, false⟩
    ∧ diffURL diffAlg ⟨Except.ok [], false, false, none⟩
      = ⟨[], 0, none, none, false, false⟩ := by
  exact ⟨by simp [diffURL, Ne.symm h], by simp [diffURL]⟩

/-- Closed instance of C2 (amended) at the fetched text "a". -/
theorem diffURL_firstFetch_initialReport_witness :
    diffURL noDiffAlg ⟨Except.ok ('a' :: []), false, false, none⟩
      = ⟨initialFetchMsg, 0, none, some ('a' :: []), true, false⟩
    ∧ diffURL noDiffAlg ⟨Except.ok [], false, false, none⟩
      = ⟨[], 0, none, none, false, false⟩ :=
  diffURL_firstFetch_initialReport noDiffAlg ('a' :: []) (by decide)

/-- C3: in one-shot mode (`every <= 0`, here 0, with the default 2min
jitter) a tick whose fetch fails leaves the loop neither terminated nor
with a re-armed timer: the `continue` jumps back to the `select`, the
timer is never reset in one-shot mode, so the goroutine blocks awaiting
cancellation instead of terminating after logging. -/
theorem watchTick_oneShot_fetchErr_blocks :
    watchTick 0 120000000000 0 true = ⟨false, false, none⟩ := by decide

/-- C4: when the stored snapshot equals the fetched text, `diffURL`
returns the empty diff with edit count 0 and no error, never invokes
`reportDiffs`, and performs no state write (for any write-fault
disposition), leaving the on-disk snapshot unchanged. -/
theorem diffURL_noChange_noop
    (diffAlg : List Char → List Char → List GoDiff) (t : List Char) (wf : Bool) :
    diffURL diffAlg ⟨Except.ok t, false, wf, some t⟩
      = ⟨[], 0, none, some t, false, false⟩ := by
  simp [diffURL]

/-- C9: a persisted but empty snapshot is indistinguishable from a first
observation: on a non-empty fetched text, `diffURL` persists the new
text and returns the "(initial fetch)" report with edit count 0, the
exact outcome of the no-snapshot case. -/
theorem diffURL_emptySnapshot_as_initial
    (diffAlg : List Char → List Char → List GoDiff) (t : List Char) (h : t ≠ []) :
    diffURL diffAlg ⟨Except.ok t, false, false, some []⟩
      = ⟨initialFetchMsg, 0, none, some t, true, false⟩
    ∧ diffURL diffAlg ⟨Except.ok t, false, false, some []⟩
      = diffURL diffAlg ⟨Except.ok t, false, false, none⟩ := by
  have h' : ([] : List Char) ≠ t := Ne.symm h
  exact ⟨by simp [diffURL, h'], by simp [diffURL, h']⟩

/-- Closed instance of C9 at the fetched text "a". -/
theorem diffURL_emptySnapshot_as_initial_witness :
    diffURL noDiffAlg ⟨Except.ok ('a' :: []), false, false, some []⟩
      = ⟨initialFetchMsg, 0, none, some ('a' :: []), true, false⟩
    ∧ diffURL noDiffAlg ⟨Except.ok ('a' :: []), false, false, some []⟩
      = diffURL noDiffAlg ⟨Except.ok ('a' :: []), false, false, none⟩ :=
  diffURL_emptySnapshot_as_initial noDiffAlg ('a' :: []) (by decide)

/-- C5: `diffURL` returns a non-nil error exactly when the fetch fails,
or the fetch succeeds and the state read fails other than with
not-found, or the state write is reached and fails; every error return
carries the empty diff and edit count 0; and a not-found state read
(no snapshot on disk) behaves like a successful read of the empty
snapshot in all returned values. -/
theorem diffURL_error_iff
    (diffAlg : List Char → List Char → List GoDiff) (env : Env) :
    ((diffURL diffAlg env).err.isSome
        = (fetchFailed env || (!fetchFailed env && env.readFault)
            || (writeAttempted env && env.writeFault)))
    ∧ ((diffURL diffAlg env).err.isSome = true →
        (diffURL diffAlg env).diff = [] ∧ (diffURL diffAlg env).edits = 0)
    ∧ (∀ u : List Char, ∀ wf : Bool,
        (diffURL diffAlg ⟨Except.ok u, false, wf, none⟩).diff
            = (diffURL diffAlg ⟨Except.ok u, false, wf, some []⟩).diff
        ∧ (diffURL diffAlg ⟨Except.ok u, false, wf, none⟩).edits
            = (diffURL diffAlg ⟨Except.ok u, false, wf, some []⟩).edits
        ∧ (diffURL diffAlg ⟨Except.ok u, false, wf, none⟩).err
            = (diffURL diffAlg ⟨Except.ok u, false, wf, some []⟩).err) := by
  obtain ⟨fr, rf, wf, st⟩ := env
  refine ⟨?_, ?_, ?_⟩
  · cases fr with
    | error e => simp [diffURL, fetchFailed, writeAttempted]
    | ok text =>
      by_cases hold : st.getD [] = text
      · cases rf <;> simp [diffURL, fetchFailed, writeAttempted, hold]
      · by_cases hemp : st.getD [] = []
        · have htext : text ≠ [] := fun ht => hold (hemp.trans ht.symm)
          cases rf <;> cases wf <;>
            simp [diffURL, fetchFailed, writeAttempted, hold, hemp, htext]
        · cases rf <;> cases wf <;>
            simp [diffURL, fetchFailed, writeAttempted, hold, hemp]
  · cases fr with
    | error e => simp [diffURL]
    | ok text =>
      by_cases hold : st.getD [] = text
      · cases rf <;> simp [diffURL, hold]
      · by_cases hemp : st.getD [] = []
        · have htext : text ≠ [] := fun ht => hold (hemp.trans ht.symm)
          cases rf <;> cases wf <;> simp [diffURL, hold, hemp, htext]
        · cases rf <;> cases wf <;> simp [diffURL, hold, hemp]
  · intro u wfu
    by_cases hu : u = []
    · subst hu; simp [diffURL]
    · cases wfu <;> simp [diffURL, Ne.symm hu]

/-- Closed instance of C5: a failed fetch yields the empty diff with
edit count 0, and the not-found read is interchangeable with an empty
stored snapshot at the fetched text "a". -/
theorem diffURL_error_iff_witness :
    ((diffURL noDiffAlg ⟨Except.error (), false, false, none⟩).diff = []
      ∧ (diffURL noDiffAlg ⟨Except.error (), false, false, none⟩).edits = 0)
    ∧ (diffURL noDiffAlg ⟨Except.ok ('a' :: []), false, false, none⟩).diff
        = (diffURL noDiffAlg ⟨Except.ok ('a' :: []), false, false, some []⟩).diff :=
  ⟨(diffURL_error_iff noDiffAlg ⟨Except.error (), false, false, none⟩).2.1 (by decide),
   ((diffURL_error_iff noDiffAlg
      ⟨Except.error (), false, false, none⟩).2.2 ('a' :: []) false).1⟩

/-- C6: with a fixed state directory, home directory and hash function,
`statePath` is deterministic in the URL, and the derived filename (hex
digest, underscore, sanitized URL, truncated) never exceeds 127
bytes. -/
theorem statePath_deterministic_and_bounded (hash : List Char → List Char)
    (dir home : List Char) (homeOk : Bool) :
    (∀ u v : List Char, u = v →
        statePath hash dir home homeOk u = statePath hash dir home homeOk v)
    ∧ ∀ u : List Char, (stateName hash u).length ≤ 127 := by
  refine ⟨fun u v huv => by rw [huv], fun u => ?_⟩
  simp only [stateName]
  split
  · simp only [List.length_take]; omega
  · omega

/-- Closed instance of C6 at a concrete hash function, directory and
URL. -/
theorem statePath_deterministic_and_bounded_witness :
    statePath (fun _ => "da39".toList) "~/.watchurl/".toList "/home/u".toList true
        "https://x.y".toList
      = statePath (fun _ => "da39".toList) "~/.watchurl/".toList "/home/u".toList true
        "https://x.y".toList
    ∧ (stateName (fun _ => "da39".toList) "https://x.y".toList).length ≤ 127 :=
  ⟨(statePath_deterministic_and_bounded (fun _ => "da39".toList) "~/.watchurl/".toList
      "/home/u".toList true).1 _ _ rfl,
   (statePath_deterministic_and_bounded (fun _ => "da39".toList) "~/.watchurl/".toList
      "/home/u".toList true).2 _⟩

/-- C7: in repeat mode (`every > 0`) every tick re-arms the timer with
delay `every + j`, where `j` is the jitter draw when `jitter > 0` and 0
otherwise; under the contract of `rand.Int63n` (`0 <= j < jitter`) the
delay lies in `[every, every + jitter]`. -/
theorem watchTick_delay_bounds (every jitter j : Int) (fetchErr : Bool)
    (hev : 0 < every) (hjit : 0 ≤ jitter) (hj : 0 < jitter → 0 ≤ j ∧ j < jitter) :
    ∃ d : Int, (watchTick every jitter j fetchErr).delay = some d
      ∧ d = every + (if 0 < jitter then j else 0)
      ∧ every ≤ d ∧ d ≤ every + jitter ∧ (jitter ≤ 0 → d = every) := by
  have hne : ¬every ≤ 0 := by omega
  refine ⟨every + (if 0 < jitter then j else 0), ?_, rfl, ?_, ?_, ?_⟩
  · cases fetchErr <;> simp [watchTick, hev, hne]
  · by_cases h0 : 0 < jitter
    · have := hj h0; simp only [if_pos h0]; omega
    · simp only [if_neg h0]; omega
  · by_cases h0 : 0 < jitter
    · have := hj h0; simp only [if_pos h0]; omega
    · simp only [if_neg h0]; omega
  · intro hz
    have h0 : ¬0 < jitter := by omega
    simp only [if_neg h0]; omega

/-- Closed instance of C7: interval 10ns, jitter bound 4ns, draw 3ns. -/
theorem watchTick_delay_bounds_witness :
    ∃ d : Int, (watchTick 10 4 3 false).delay = some d
      ∧ d = 10 + (if (0 : Int) < 4 then (3 : Int) else 0)
      ∧ 10 ≤ d ∧ d ≤ 10 + 4 ∧ ((4 : Int) ≤ 0 → d = 10) :=
  watchTick_delay_bounds 10 4 3 false (by decide) (by decide) (by decide)

/-- C8: on any execution where the fetch succeeds and neither state read
nor state write faults, the legacy `diffURL` and the later `diffURL`
return the same report string and the same edit count; and for any URL
whose untruncated state filename is at most 127 bytes, both variants
derive the same filename (the later variant's truncation is a no-op). -/
theorem diffURL_matches_legacy (diffAlg : List Char → List Char → List GoDiff) :
    (∀ env : Env, ∀ t : List Char, env.fetchRes = Except.ok t →
        env.readFault = false → env.writeFault = false →
        (diffURL diffAlg env).diff = (Legacy.diffURL diffAlg env).diff
        ∧ (diffURL diffAlg env).edits = (Legacy.diffURL diffAlg env).edits)
    ∧ (∀ hash : List Char → List Char, ∀ u : List Char,
        (Legacy.stateName hash u).length ≤ 127 →
        stateName hash u = Legacy.stateName hash u) := by
  constructor
  · rintro ⟨fr, rf, wf, st⟩ t hfr hrf hwf
    simp only at hfr hrf hwf
    subst hfr; subst hrf; subst hwf
    by_cases hold : st.getD [] = t
    · simp [diffURL, Legacy.diffURL, hold]
    · by_cases hemp : st.getD [] = [] <;>
        simp [diffURL, Legacy.diffURL, hold, hemp, legacy_reportDiffs_eq]
  · intro hash u h
    simp only [Legacy.stateName] at h
    simp only [stateName, Legacy.stateName]
    rw [if_neg (by omega)]

/-- Closed instance of C8: first observation of "a", and a short URL
whose filename needs no truncation. -/
theorem diffURL_matches_legacy_witness :
    ((diffURL noDiffAlg ⟨Except.ok ('a' :: []), false, false, none⟩).diff
        = (Legacy.diffURL noDiffAlg ⟨Except.ok ('a' :: []), false, false, none⟩).diff
      ∧ (diffURL noDiffAlg ⟨Except.ok ('a' :: []), false, false, none⟩).edits
        = (Legacy.diffURL noDiffAlg ⟨Except.ok ('a' :: []), false, false, none⟩).edits)
    ∧ stateName (fun _ => "da39".toList) ('x' :: [])
        = Legacy.stateName (fun _ => "da39".toList) ('x' :: []) :=
  ⟨(diffURL_matches_legacy noDiffAlg).1 ⟨Except.ok ('a' :: []), false, false, none⟩
      ('a' :: []) rfl rfl rfl,
   (diffURL_matches_legacy noDiffAlg).2 (fun _ => "da39".toList) ('x' :: []) (by decide)⟩

/-- C10: when `diffURL` returns no error but the timeout-wrapped context
has expired by the time `diffURLWithTimeout` checks it, the nil error is
replaced with a context-derived error while the tick's effects stand:
the write flag and the post-call snapshot are those of the successful
`diffURL` run, so a tick that persisted a new snapshot can still be
reported to the caller as failed (concretely so for a first observation
of "a"). -/
theorem diffURLWithTimeout_ctxError_after_persist
    (diffAlg : List Char → List Char → List GoDiff) (env : Env)
    (h : (diffURL diffAlg env).err = none) :
    (diffURLWithTimeout diffAlg true env).err = some DiffErr.ctxErr
    ∧ (diffURLWithTimeout diffAlg true env).wrote = (diffURL diffAlg env).wrote
    ∧ (diffURLWithTimeout diffAlg true env).store = (diffURL diffAlg env).store
    ∧ (diffURLWithTimeout diffAlg true ⟨Except.ok ('a' :: []), false, false, none⟩).err
        = some DiffErr.ctxErr
    ∧ (diffURLWithTimeout diffAlg true
        ⟨Except.ok ('a' :: []), false, false, none⟩).wrote = true := by
  refine ⟨?_, ?_, ?_, by simp [diffURLWithTimeout, diffURL],
    by simp [diffURLWithTimeout, diffURL]⟩ <;>
  simp [diffURLWithTimeout, h]

/-- Closed instance of C10: the first observation of "a" persists the
snapshot, yet the wrapper reports a context error. -/
theorem diffURLWithTimeout_ctxError_after_persist_witness :
    (diffURLWithTimeout noDiffAlg true ⟨Except.ok ('a' :: []), false, false, none⟩).err
        = some DiffErr.ctxErr
    ∧ (diffURLWithTimeout noDiffAlg true
        ⟨Except.ok ('a' :: []), false, false, none⟩).wrote
      = (diffURL noDiffAlg ⟨Except.ok ('a' :: []), false, false, none⟩).wrote :=
  ⟨(diffURLWithTimeout_ctxError_after_persist noDiffAlg
      ⟨Except.ok ('a' :: []), false, false, none⟩ (by decide)).1,
   (diffURLWithTimeout_ctxError_after_persist noDiffAlg
      ⟨Except.ok ('a' :: []), false, false, none⟩ (by decide)).2.1⟩
